import Mathlib

/-!
Verification development for the FG Stock Board inventory tracker
(`src/part_table_app.py`).

The data model (cells, racks, history events, application state) and the
functions present in the source file (`init_default_data_structures`,
`load_all_from_sheets`, `read_sheet_to_df`, `cell_total_weight`,
`total_qty_all`, `add_history`, the role/permission flags) are embedded
as executable Lean definitions.  Python machine integers are modelled as
`Int`, decimal weights as `Rat`, Python `None` as `Option.none`.

The mutation operations (Add / Subtract) and the FIFO resolver are not
present in the source excerpt; they are modelled from the specification
(each such definition carries a `Modelled from the spec:` doc comment).
-/

namespace FGStock

/-- A storage cell: optional part identifier (`None` in Python when empty)
and an integer quantity. -/
structure Cell where
  partNo : Option String
  quantity : Int
deriving DecidableEq, Repr, Inhabited

/-- Static part attributes held by the part catalog
(`Weight`, `Customer`, `Tube Length`). -/
structure PartMeta where
  weight : Rat
  customer : String
  tubeLength : Int
deriving DecidableEq, Repr, Inhabited

/-- One named rack: fixed row count, derived column count, the 2-D cell
array and the configured slot count. -/
structure Rack where
  rows : Nat
  cols : Nat
  array : List (List Cell)
  spaces : Nat
deriving DecidableEq, Repr, Inhabited

/-- One history entry, mirroring the dict built by `add_history`:
Timestamp, User, Action, Rack, Row, Col, Part No, Quantity, Note.
Row/Col are 1-based user-facing coordinates. -/
structure HistoryEvent where
  timestamp : String
  user : String
  action : String
  rack : String
  row : Int
  col : Int
  partNo : String
  quantity : Int
  note : String
deriving DecidableEq, Repr, Inhabited

/-- The in-memory session state: part catalog, rack grid, history log
(stored newest-first, as `add_history` inserts at index 0). -/
structure AppState where
  part_master : List (String × PartMeta)
  racks : List (String × Rack)
  history : List HistoryEvent
deriving DecidableEq, Repr, Inhabited

/-- `PACKAGING_WEIGHT = 25.0`. -/
def PACKAGING_WEIGHT : Rat := 25

/-- `CELL_CAPACITY = 25`. -/
def CELL_CAPACITY : Int := 25

/-- `RACK_SPACES = {"A": 9, "B": 15, "C": 12, "D": 6, "E": 24, "F": 57}`. -/
def RACK_SPACES : List (String × Nat) :=
  [("A", 9), ("B", 15), ("C", 12), ("D", 6), ("E", 24), ("F", 57)]

/-- `FIXED_ROWS = 3`. -/
def FIXED_ROWS : Nat := 3

/-- A fresh empty cell: `{"Part No": None, "Quantity": 0}`. -/
def emptyCell : Cell := ⟨none, 0⟩

/-- The grid built for one rack: `FIXED_ROWS` rows of `cols` empty cells. -/
def mkGrid (rows cols : Nat) : List (List Cell) :=
  List.replicate rows (List.replicate cols emptyCell)

/-- One rack as built by the initialisation loop:
`cols = math.ceil(spaces / FIXED_ROWS)` (integer ceiling division). -/
def mkRack (spaces : Nat) : Rack :=
  let cols := (spaces + FIXED_ROWS - 1) / FIXED_ROWS
  ⟨FIXED_ROWS, cols, mkGrid FIXED_ROWS cols, spaces⟩

/-- The default part master of `init_default_data_structures`. -/
def default_pm : List (String × PartMeta) :=
  [("10283026", ⟨805/100, "Mahindra Pune", 1254⟩),
   ("10291078", ⟨79/10, "Mahindra Pune", 1245⟩),
   ("10282069", ⟨895/100, "Mahindra Pune", 1262⟩)]

/-- The default racks layout: one rack per `RACK_SPACES` entry. -/
def initRacks : List (String × Rack) :=
  RACK_SPACES.map (fun p => (p.1, mkRack p.2))

/-- `init_default_data_structures()`: default part master, default racks,
empty history. -/
def init_default_data_structures :
    List (String × PartMeta) × List (String × Rack) × List HistoryEvent :=
  (default_pm, initRacks, [])

/-- Dictionary lookup `racks[r]` (first matching key). -/
def getRack (racks : List (String × Rack)) (rid : String) : Option Rack :=
  (racks.find? (fun p => p.1 == rid)).map (fun p => p.2)

/-- Bounds-checked read of the cell at 1-based coordinates `(i, j)` of
rack `rid`; `none` when the rack is unknown or the coordinates are out
of range. -/
def cellAt (racks : List (String × Rack)) (rid : String) (i j : Int) :
    Option Cell :=
  match getRack racks rid with
  | none => none
  | some rack =>
    if 1 ≤ i ∧ 1 ≤ j then
      match rack.array[(i - 1).toNat]? with
      | none => none
      | some rowCells => rowCells[(j - 1).toNat]?
    else none

/-- In-place update `array[i][j] = c` (0-based; out-of-range indices leave
the array unchanged, as `List.set` does). -/
def setCellArray (a : List (List Cell)) (i j : Nat) (c : Cell) :
    List (List Cell) :=
  a.set i ((a.getD i []).set j c)

/-- In-place update of the cell at 1-based coordinates `(i, j)` of rack
`rid`. -/
def setCell (racks : List (String × Rack)) (rid : String) (i j : Int)
    (c : Cell) : List (String × Rack) :=
  racks.map (fun p =>
    if p.1 == rid then
      (p.1, { p.2 with
              array := setCellArray p.2.array (i - 1).toNat (j - 1).toNat c })
    else p)

/-- All cells of all racks, flattened in iteration order (the generator
`for r in racks.values() for row in r["array"] for c in row`). -/
def cellsOf (racks : List (String × Rack)) : List Cell :=
  (racks.map (fun p => p.2.array.flatten)).flatten

/-- `add_history(action, rack, row_ui, col_ui, part_no, qty, user, note)`:
builds the entry dict and inserts it at index 0 of the history list
(`st.session_state.history.insert(0, entry)`).  The timestamp is passed
explicitly (`ts_now()` reads the wall clock, an external input). -/
def add_history (action rack : String) (row_ui col_ui : Int)
    (part_no : String) (qty : Int) (user note ts : String)
    (history : List HistoryEvent) : List HistoryEvent :=
  { timestamp := ts, user := user, action := action, rack := rack,
    row := row_ui, col := col_ui, partNo := part_no, quantity := qty,
    note := note } :: history

/-- `total_qty_all()`: sum of `c["Quantity"]` over the flattened cell
generator. -/
def total_qty_all (racks : List (String × Rack)) : Int :=
  ((cellsOf racks).map (fun c => c.quantity)).sum

/-- `part_master.get(pn, {}).get("Weight", 0.0)`: the catalog weight of a
part, `0` when the part is unknown. -/
def pmWeight (pm : List (String × PartMeta)) (pn : String) : Rat :=
  match pm.find? (fun p => p.1 == pn) with
  | some p => p.2.weight
  | none => 0

/-- `cell_total_weight(cell)`: `qty * weight + PACKAGING_WEIGHT` when
`qty > 0 and pn` (Python truthiness: `pn` is neither `None` nor the
empty string), else `0.0`.  An unknown part contributes weight `0`. -/
def cell_total_weight (pm : List (String × PartMeta)) (cell : Cell) : Rat :=
  match cell.partNo with
  | some pn =>
    if 0 < cell.quantity ∧ pn ≠ "" then
      (cell.quantity : Rat) * pmWeight pm pn + PACKAGING_WEIGHT
    else 0
  | none => 0

/-- The demo user table `USERS`, reduced to username → role (the password
hashes are external credential data and play no role in the claims). -/
def USERS : List (String × String) :=
  [("Vishal", "master"), ("Kittu", "input"), ("1306764", "output")]

/-- The role `login_ok` resolves for a username (`USERS.get(username)`). -/
def lookupRole (username : String) : Option String :=
  (USERS.find? (fun p => p.1 == username)).map (fun p => p.2)

/-- `can_master = role == "master"`. -/
def can_master (role : String) : Bool := role == "master"

/-- `can_input = role in ("master", "input")`. -/
def can_input (role : String) : Bool := role == "master" || role == "input"

/-- `can_output = role in ("master", "input", "output")`. -/
def can_output (role : String) : Bool :=
  role == "master" || role == "input" || role == "output"

/-- Error taxonomy of the spec (§7). -/
inductive OpError where
  | invalidCoordinate
  | conflict
  | capacityExceeded
  | mismatch
deriving DecidableEq, Repr

/-- Modelled from the spec: the `Add(rackId, row, col, partId, qty)`
mutation of §4.2, missing from the source excerpt.  Validate-then-mutate:
a cell holding a different part yields `Conflict`; a capacity overflow
(`currentQty + qty > CELL_CAPACITY`) yields `CapacityExceeded`; both
leave the state untouched.  On success the target cell becomes
`(partId, currentQty + qty)` and exactly one `Add` event is prepended to
the history via `add_history`. -/
def addOp (s : AppState) (user ts rid : String) (row col : Int)
    (partId : String) (qty : Int) : Except OpError Unit × AppState :=
  match cellAt s.racks rid row col with
  | none => (Except.error OpError.invalidCoordinate, s)
  | some c =>
    if c.partNo ≠ none ∧ c.partNo ≠ some partId then
      (Except.error OpError.conflict, s)
    else if CELL_CAPACITY < c.quantity + qty then
      (Except.error OpError.capacityExceeded, s)
    else
      (Except.ok (),
       { s with
         racks := setCell s.racks rid row col
           { partNo := some partId, quantity := c.quantity + qty },
         history := add_history "Add" rid row col partId qty user "" ts
           s.history })

/-- Modelled from the spec: the `Subtract(rackId, row, col, partId, qty)`
mutation of §4.2, missing from the source excerpt.  Fails with `Mismatch`
(state untouched) unless the cell holds `partId` with quantity ≥ `qty`;
on success the quantity drops by `qty`, the part marker is cleared when
it reaches 0, and exactly one `Subtract` event is prepended. -/
def subtractOp (s : AppState) (user ts rid : String) (row col : Int)
    (partId : String) (qty : Int) : Except OpError Unit × AppState :=
  match cellAt s.racks rid row col with
  | none => (Except.error OpError.invalidCoordinate, s)
  | some c =>
    if c.partNo = some partId ∧ qty ≤ c.quantity then
      (Except.ok (),
       { s with
         racks := setCell s.racks rid row col
           { partNo := if c.quantity - qty = 0 then none else some partId,
             quantity := c.quantity - qty },
         history := add_history "Subtract" rid row col partId qty user "" ts
           s.history })
    else (Except.error OpError.mismatch, s)

/-- Modelled from the spec: eligibility of one history event for the FIFO
pick of `partId` (§4.4): the event is an `Add` of `partId` and the cell
at its coordinates currently holds `partId` with positive quantity. -/
def eligiblePick (racks : List (String × Rack)) (partId : String)
    (e : HistoryEvent) : Bool :=
  e.action == "Add" && e.partNo == partId &&
    (match cellAt racks e.rack e.row e.col with
     | some c => c.partNo == some partId && decide (0 < c.quantity)
     | none => false)

/-- First eligible event of a chronologically-ascending event list. -/
def findPickChron (racks : List (String × Rack)) (partId : String) :
    List HistoryEvent → Option (String × Int × Int)
  | [] => none
  | e :: rest =>
    if eligiblePick racks partId e then some (e.rack, e.row, e.col)
    else findPickChron racks partId rest

/-- Modelled from the spec: `FindPick(partId)` of §4.4, missing from the
source excerpt.  The stored history is newest-first (`add_history`
inserts at index 0), so the chronological-ascending walk reads it
reversed.  Pure query: it returns only a cell reference, never a new
state. -/
def findPick (s : AppState) (partId : String) :
    Option (String × Int × Int) :=
  findPickChron s.racks partId s.history.reverse

/-- One already-parsed row of the persisted `racks` worksheet:
Rack, Row, Col, Part No, Quantity (`None` for a missing Part No). -/
structure RackSheetRow where
  rack : String
  rowIdx : Int
  colIdx : Int
  partNo : Option String
  quantity : Int
deriving DecidableEq, Repr, Inhabited

/-- `pn if pn not in ("", "None", None) else None` of the load loop. -/
def normalizePartNo : Option String → Option String
  | none => none
  | some s => if s = "" ∨ s = "None" then none else some s

/-- One iteration of the `racks_df` load loop: skip unknown racks, check
`0 <= i < rows` and `0 <= j < cols` against the rack's declared shape,
then overwrite the cell with the row's (normalized) part and quantity —
no invariant validation is performed. -/
def applyRackRow (racks : List (String × Rack)) (r : RackSheetRow) :
    List (String × Rack) :=
  match getRack racks r.rack with
  | none => racks
  | some rack =>
    if 0 ≤ r.rowIdx - 1 ∧ r.rowIdx - 1 < (rack.rows : Int) ∧
       0 ≤ r.colIdx - 1 ∧ r.colIdx - 1 < (rack.cols : Int) then
      setCell racks r.rack r.rowIdx r.colIdx
        { partNo := normalizePartNo r.partNo, quantity := r.quantity }
    else racks

/-- The racks part of `load_all_from_sheets`: rebuild the default grid,
then overlay every persisted row in order. -/
def loadRacks (rows : List RackSheetRow) : List (String × Rack) :=
  rows.foldl applyRackRow initRacks

/-- One already-parsed row of the persisted `part_master` worksheet. -/
structure PMRow where
  partNo : String
  weight : Rat
  customer : String
  tubeLength : Int
deriving DecidableEq, Repr, Inhabited

/-- Python dict assignment `part_master[pn] = meta`: overwrite in place
when the key exists, else append. -/
def pmUpsert (pm : List (String × PartMeta)) (pn : String) (m : PartMeta) :
    List (String × PartMeta) :=
  if (pm.find? (fun p => p.1 == pn)).isSome then
    pm.map (fun p => if p.1 == pn then (pn, m) else p)
  else pm ++ [(pn, m)]

/-- The part-master part of `load_all_from_sheets`: start from an empty
dict, insert every row whose stripped part number is non-empty. -/
def loadPartMaster (rows : List PMRow) : List (String × PartMeta) :=
  rows.foldl
    (fun pm r =>
      if r.partNo.trim ≠ "" then
        pmUpsert pm r.partNo.trim ⟨r.weight, r.customer, r.tubeLength⟩
      else pm)
    []

/-- `read_sheet_to_df(sh, worksheet_name)`: any exception from the
underlying worksheet read (absent table, unreadable store) yields an
empty frame, and an empty frame stays empty; a successful read yields
its rows. -/
def read_sheet_to_df {α : Type} (fetch : Except String (List α)) :
    List α :=
  match fetch with
  | Except.error _ => []
  | Except.ok rows => rows

/-- `load_all_from_sheets()`, fed with the three worksheet fetch results
(`part_master`, `racks`, `history`). -/
def load_all_from_sheets (fpm : Except String (List PMRow))
    (fracks : Except String (List RackSheetRow))
    (fhist : Except String (List HistoryEvent)) :
    List (String × PartMeta) × List (String × Rack) × List HistoryEvent :=
  (loadPartMaster (read_sheet_to_df fpm),
   loadRacks (read_sheet_to_df fracks),
   read_sheet_to_df fhist)

/-- The per-cell invariant of §8: `quantity == 0 ⇔ partId is absent` and
`0 ≤ quantity ≤ capacity`. -/
def cellInv (c : Cell) : Prop :=
  (c.quantity = 0 ↔ c.partNo = none) ∧ 0 ≤ c.quantity ∧
    c.quantity ≤ CELL_CAPACITY

instance (c : Cell) : Decidable (cellInv c) := by
  unfold cellInv; infer_instance

/-- Every cell of every rack satisfies the invariant. -/
def racksInv (racks : List (String × Rack)) : Prop :=
  ∀ c ∈ cellsOf racks, cellInv c

instance (racks : List (String × Rack)) : Decidable (racksInv racks) :=
  List.decidableBAll _ _

/-- The observable shape of a rack entry: name, declared row/column/slot
counts and the dimensions of the cell array. -/
def rackShape (p : String × Rack) :
    String × Nat × Nat × Nat × Nat × List Nat :=
  (p.1, p.2.rows, p.2.cols, p.2.spaces, p.2.array.length,
   p.2.array.map List.length)

/-- A fresh session started from the built-in defaults. -/
def stateEx0 : AppState := ⟨default_pm, initRacks, []⟩

/-- §8 FIFO scenario, step 1: Add "P1" qty 5 to (A,1,1) at t1. -/
def stateEx1 : AppState := (addOp stateEx0 "u" "t1" "A" 1 1 "P1" 5).2

/-- §8 FIFO scenario, step 2: Add "P1" qty 5 to (A,2,1) at t2. -/
def stateEx2 : AppState := (addOp stateEx1 "u" "t2" "A" 2 1 "P1" 5).2

/-- §8 FIFO scenario, step 3: Subtract all 5 from (A,1,1) at t3. -/
def stateEx3 : AppState := (subtractOp stateEx2 "u" "t3" "A" 1 1 "P1" 5).2

/-- §8 capacity scenario: Add(A,1,1,"P1",20) on a fresh session. -/
def stateCap : AppState := (addOp stateEx0 "u" "t1" "A" 1 1 "P1" 20).2

end FGStock

namespace FGStock

/-- `find?` by key commutes with mapping a key-preserving function. -/
theorem find?_fst_map (f : String × Rack → String × Rack)
    (hf : ∀ p, (f p).1 = p.1) (l : List (String × Rack)) (rid : String) :
    (l.map f).find? (fun p => p.1 == rid) =
      (l.find? (fun p => p.1 == rid)).map f := by
  induction l with
  | nil => rfl
  | cons hd tl ih =>
    simp only [List.map_cons, List.find?_cons, hf]
    cases h : (hd.1 == rid) with
    | true => simp
    | false => simpa using ih

/-- `setCell` rewrites the looked-up rack's array and nothing else. -/
theorem getRack_setCell (racks : List (String × Rack)) (rid : String)
    (i j : Int) (c : Cell) :
    getRack (setCell racks rid i j c) rid =
      (getRack racks rid).map (fun rack =>
        { rack with
          array := setCellArray rack.array (i - 1).toNat (j - 1).toNat c }) := by
  unfold getRack setCell
  rw [find?_fst_map]
  · cases hf : racks.find? (fun p => p.1 == rid) with
    | none => rfl
    | some p =>
      have hp := List.find?_some hf
      simp only at hp
      simp only [Option.map_some']
      rw [if_pos hp]
  · intro p
    by_cases h : (p.1 == rid) = true <;> simp [h]

/-- After `setCell` at in-range coordinates, `cellAt` reads back the new
cell. -/
theorem cellAt_setCell (racks : List (String × Rack)) (rid : String)
    (i j : Int) (c c0 : Cell) (h : cellAt racks rid i j = some c0) :
    cellAt (setCell racks rid i j c) rid i j = some c := by
  unfold cellAt at h ⊢
  cases hr : getRack racks rid with
  | none => simp only [hr] at h; exact Option.noConfusion h
  | some rack =>
    simp only [hr] at h
    rw [getRack_setCell, hr]
    simp only [Option.map_some']
    by_cases hij : 1 ≤ i ∧ 1 ≤ j
    · rw [if_pos hij] at h ⊢
      cases ha : rack.array[(i - 1).toNat]? with
      | none => simp only [ha] at h; exact Option.noConfusion h
      | some rowCells =>
        simp only [ha] at h
        have hi : (i - 1).toNat < rack.array.length := by
          rcases List.getElem?_eq_some_iff.mp ha with ⟨hlt, _⟩
          exact hlt
        have hj : (j - 1).toNat < rowCells.length := by
          rcases List.getElem?_eq_some_iff.mp h with ⟨hlt, _⟩
          exact hlt
        have hgetD : rack.array.getD (i - 1).toNat [] = rowCells := by
          rw [List.getD_eq_getElem?_getD, ha]
          rfl
        simp only [setCellArray, hgetD]
        rw [List.getElem?_set_self hi]
        simpa using List.getElem?_set_self hj
    · rw [if_neg hij] at h; cases h

/-- A cell read by `cellAt` is among the flattened cells. -/
theorem mem_of_cellAt (racks : List (String × Rack)) (rid : String)
    (i j : Int) (c : Cell) (h : cellAt racks rid i j = some c) :
    c ∈ cellsOf racks := by
  unfold cellAt at h
  cases hr : getRack racks rid with
  | none => simp only [hr] at h; exact Option.noConfusion h
  | some rack =>
    simp only [hr] at h
    by_cases hij : 1 ≤ i ∧ 1 ≤ j
    · rw [if_pos hij] at h
      cases ha : rack.array[(i - 1).toNat]? with
      | none => simp only [ha] at h; exact Option.noConfusion h
      | some rowCells =>
        simp only [ha] at h
        have hrow : rowCells ∈ rack.array := List.getElem?_mem ha
        have hc : c ∈ rowCells := List.getElem?_mem h
        have hrk : rack ∈ racks.map (fun p => p.2) := by
          unfold getRack at hr
          cases hf : racks.find? (fun p => p.1 == rid) with
          | none => rw [hf] at hr; cases hr
          | some p =>
            rw [hf] at hr
            have : p ∈ racks := List.mem_of_find?_eq_some hf
            simp only [Option.map_some', Option.some.injEq] at hr
            exact hr ▸ List.mem_map_of_mem _ this
        unfold cellsOf
        rcases List.mem_map.mp hrk with ⟨p, hp, hpe⟩
        refine List.mem_flatten_of_mem (l := p.2.array.flatten) ?_ ?_
        · exact List.mem_map_of_mem _ hp
        · exact List.mem_flatten_of_mem (hpe ▸ hrow) hc
    · rw [if_neg hij] at h; cases h

/-- Cells of an updated array are old cells or the written cell. -/
theorem mem_flatten_setCellArray (a : List (List Cell)) (i j : Nat)
    (c x : Cell) (h : x ∈ (setCellArray a i j c).flatten) :
    x ∈ a.flatten ∨ x = c := by
  unfold setCellArray at h
  rcases List.mem_flatten.mp h with ⟨row, hrow, hx⟩
  rcases List.mem_or_eq_of_mem_set hrow with hrow' | hrow'
  · exact Or.inl (List.mem_flatten_of_mem hrow' hx)
  · subst hrow'
    rcases List.mem_or_eq_of_mem_set hx with hx' | hx'
    · cases ha : a[i]? with
      | none => simp [ha] at hx'
      | some row0 =>
        have : x ∈ row0 := by simpa [ha] using hx'
        exact Or.inl (List.mem_flatten_of_mem (List.getElem?_mem ha) this)
    · exact Or.inr hx'

/-- Cells after `setCell` are old cells or the written cell. -/
theorem mem_cellsOf_setCell (racks : List (String × Rack)) (rid : String)
    (i j : Int) (c x : Cell) (h : x ∈ cellsOf (setCell racks rid i j c)) :
    x ∈ cellsOf racks ∨ x = c := by
  unfold cellsOf setCell at h
  rcases List.mem_flatten.mp h with ⟨cells, hcells, hx⟩
  rw [List.map_map] at hcells
  rcases List.mem_map.mp hcells with ⟨p, hp, hpe⟩
  by_cases hk : (p.1 == rid) = true
  · have : cells = (setCellArray p.2.array (i - 1).toNat (j - 1).toNat c).flatten := by
      rw [← hpe]
      simp only [Function.comp_apply]
      rw [if_pos hk]
    subst this
    rcases mem_flatten_setCellArray _ _ _ _ _ hx with hx' | hx'
    · refine Or.inl (List.mem_flatten_of_mem ?_ hx')
      exact List.mem_map_of_mem _ hp
    · exact Or.inr hx'
  · have : cells = p.2.array.flatten := by
      rw [← hpe]
      simp only [Function.comp_apply]
      rw [if_neg hk]
    subst this
    refine Or.inl (List.mem_flatten_of_mem ?_ hx)
    exact List.mem_map_of_mem _ hp

/-- The chronological scan returns nothing exactly when no event is
eligible. -/
theorem findPickChron_eq_none (racks : List (String × Rack)) (pid : String) :
    ∀ l : List HistoryEvent,
      findPickChron racks pid l = none ↔
        ∀ e ∈ l, eligiblePick racks pid e = false := by
  intro l
  induction l with
  | nil => simp [findPickChron]
  | cons hd tl ih =>
    unfold findPickChron
    by_cases h : eligiblePick racks pid hd = true
    · simp [h]
    · simp only [Bool.not_eq_true] at h
      simp [h, ih]

/-- A successful chronological scan returns the target of the first
eligible event: every strictly earlier event is ineligible. -/
theorem findPickChron_first (racks : List (String × Rack)) (pid : String) :
    ∀ (l : List HistoryEvent) (r : String) (i j : Int),
      findPickChron racks pid l = some (r, i, j) →
        ∃ (k : Nat) (e : HistoryEvent),
          l[k]? = some e ∧ eligiblePick racks pid e = true ∧
          r = e.rack ∧ i = e.row ∧ j = e.col ∧
          ∀ m, m < k → ∀ e', l[m]? = some e' →
            eligiblePick racks pid e' = false := by
  intro l
  induction l with
  | nil => intro r i j h; exact Option.noConfusion h
  | cons hd tl ih =>
    intro r i j h
    unfold findPickChron at h
    by_cases he : eligiblePick racks pid hd = true
    · rw [if_pos he] at h
      obtain ⟨h1, h2, h3⟩ : hd.rack = r ∧ hd.row = i ∧ hd.col = j := by
        simpa [Prod.ext_iff] using Option.some.inj h
      refine ⟨0, hd, by simp, he, h1.symm, h2.symm, h3.symm, ?_⟩
      intro m hm e' _
      exact absurd hm (Nat.not_lt_zero m)
    · rw [if_neg he] at h
      rcases ih r i j h with ⟨k, e, hk, helig, hr, hi, hj, hfirst⟩
      have hk1 : (hd :: tl)[k + 1]? = some e := by simpa using hk
      refine ⟨k + 1, e, hk1, helig, hr, hi, hj, ?_⟩
      intro m hm e' hm'
      cases m with
      | zero =>
        have hde : hd = e' := by simpa using hm'
        subst hde
        simpa using he
      | succ m' =>
        exact hfirst m' (Nat.lt_of_succ_lt_succ hm) e' (by simpa using hm')

/-- Row sum as an indexed sum over column positions. -/
theorem sum_map_quantity_row (row : List Cell) :
    (row.map (fun c => c.quantity)).sum =
      ∑ j in Finset.range row.length, (row.getD j emptyCell).quantity := by
  induction row with
  | nil => simp
  | cons hd tl ih =>
    rw [List.length_cons, Finset.sum_range_succ']
    simp only [List.getD_cons_succ, List.getD_cons_zero, List.map_cons,
      List.sum_cons]
    rw [ih]
    exact add_comm _ _

/-- Flattened array sum as a nested indexed sum over rows and columns. -/
theorem sum_map_quantity_flatten (a : List (List Cell)) :
    (a.flatten.map (fun c => c.quantity)).sum =
      ∑ i in Finset.range a.length,
        ∑ j in Finset.range (a.getD i []).length,
          ((a.getD i []).getD j emptyCell).quantity := by
  induction a with
  | nil => simp
  | cons hd tl ih =>
    rw [List.flatten_cons, List.map_append, List.sum_append, ih,
      List.length_cons, Finset.sum_range_succ']
    simp only [List.getD_cons_succ, List.getD_cons_zero]
    rw [sum_map_quantity_row]
    exact add_comm _ _

/-- Writing one cell never changes the row-length profile of an array. -/
theorem map_length_setCellArray :
    ∀ (a : List (List Cell)) (i j : Nat) (c : Cell),
      (setCellArray a i j c).map List.length = a.map List.length := by
  intro a
  induction a with
  | nil => intro i j c; rfl
  | cons hd tl ih =>
    intro i j c
    cases i with
    | zero => simp [setCellArray]
    | succ n =>
      simp only [setCellArray, List.getD_cons_succ, List.set_cons_succ,
        List.map_cons] at *
      rw [ih]

/-- `setCell` preserves every rack's shape. -/
theorem rackShape_setCell (racks : List (String × Rack)) (rid : String)
    (i j : Int) (c : Cell) :
    (setCell racks rid i j c).map rackShape = racks.map rackShape := by
  unfold setCell
  rw [List.map_map]
  apply List.map_congr_left
  intro p _
  simp only [Function.comp_apply]
  by_cases h : (p.1 == rid) = true
  · rw [if_pos h]
    unfold rackShape
    simp only [map_length_setCellArray]
    simp [setCellArray]
  · rw [if_neg h]

/-- One load-loop iteration preserves every rack's shape. -/
theorem rackShape_applyRackRow (racks : List (String × Rack))
    (r : RackSheetRow) :
    (applyRackRow racks r).map rackShape = racks.map rackShape := by
  unfold applyRackRow
  split
  · rfl
  · split
    · exact rackShape_setCell _ _ _ _ _
    · rfl

/-- The whole load loop preserves the default grid shape. -/
theorem rackShape_foldl_applyRackRow :
    ∀ (rows : List RackSheetRow) (racks : List (String × Rack)),
      ((rows.foldl applyRackRow racks).map rackShape) =
        racks.map rackShape := by
  intro rows
  induction rows with
  | nil => intro racks; rfl
  | cons hd tl ih =>
    intro racks
    rw [List.foldl_cons, ih, rackShape_applyRackRow]

/-- `cellInv` on a structure literal, with the projections reduced. -/
theorem cellInv_mk (p : Option String) (q : Int) :
    cellInv ⟨p, q⟩ ↔ ((q = 0 ↔ p = none) ∧ 0 ≤ q ∧ q ≤ CELL_CAPACITY) :=
  Iff.rfl

/-- `addOp` preserves the per-cell invariant, whether it succeeds or
fails. -/
theorem racksInv_addOp (s : AppState) (user ts rid : String)
    (row col : Int) (pid : String) (qty : Int) (hq : 0 < qty)
    (hs : racksInv s.racks) :
    racksInv ((addOp s user ts rid row col pid qty).2).racks := by
  unfold addOp
  split
  · exact hs
  · next c hc =>
    split
    · exact hs
    · split
      · exact hs
      · next h2 =>
        intro x hx
        rcases mem_cellsOf_setCell _ _ _ _ _ _ hx with hx' | hx'
        · exact hs x hx'
        · subst hx'
          obtain ⟨hiff, h0, h25⟩ := hs c (mem_of_cellAt _ _ _ _ _ hc)
          rw [cellInv_mk]
          simp only [CELL_CAPACITY] at h2 h25 ⊢
          exact ⟨⟨fun h => absurd h (by omega), fun h => Option.noConfusion h⟩,
            by omega, by omega⟩

/-- `subtractOp` preserves the per-cell invariant, whether it succeeds or
fails. -/
theorem racksInv_subtractOp (s : AppState) (user ts rid : String)
    (row col : Int) (pid : String) (qty : Int) (hq : 0 < qty)
    (hs : racksInv s.racks) :
    racksInv ((subtractOp s user ts rid row col pid qty).2).racks := by
  unfold subtractOp
  split
  · exact hs
  · next c hc =>
    split
    · next hcond =>
      obtain ⟨hp, hle⟩ := hcond
      intro x hx
      rcases mem_cellsOf_setCell _ _ _ _ _ _ hx with hx' | hx'
      · exact hs x hx'
      · subst hx'
        obtain ⟨hiff, h0, h25⟩ := hs c (mem_of_cellAt _ _ _ _ _ hc)
        simp only [CELL_CAPACITY] at h25
        by_cases h0' : c.quantity - qty = 0
        · rw [if_pos h0', cellInv_mk]
          simp only [CELL_CAPACITY]
          exact ⟨⟨fun _ => trivial, fun _ => h0'⟩, by omega, by omega⟩
        · rw [if_neg h0', cellInv_mk]
          simp only [CELL_CAPACITY]
          exact ⟨⟨fun h => absurd h h0', fun h => Option.noConfusion h⟩,
            by omega, by omega⟩
    · exact hs

/-- One load-loop iteration preserves the invariant when the written
cell itself satisfies it. -/
theorem racksInv_applyRackRow (racks : List (String × Rack))
    (r : RackSheetRow) (hs : racksInv racks)
    (hr : cellInv ⟨normalizePartNo r.partNo, r.quantity⟩) :
    racksInv (applyRackRow racks r) := by
  unfold applyRackRow
  split
  · exact hs
  · split
    · intro x hx
      rcases mem_cellsOf_setCell _ _ _ _ _ _ hx with hx' | hx'
      · exact hs x hx'
      · subst hx'; exact hr
    · exact hs

/-- The whole load loop preserves the invariant when every written cell
satisfies it. -/
theorem racksInv_foldl_applyRackRow :
    ∀ (rows : List RackSheetRow) (racks : List (String × Rack)),
      racksInv racks →
      (∀ r ∈ rows, cellInv ⟨normalizePartNo r.partNo, r.quantity⟩) →
      racksInv (rows.foldl applyRackRow racks) := by
  intro rows
  induction rows with
  | nil => intro racks hs _; exact hs
  | cons hd tl ih =>
    intro racks hs hall
    rw [List.foldl_cons]
    exact ih _ (racksInv_applyRackRow _ _ hs (hall hd (by simp)))
      (fun r hr => hall r (by simp [hr]))

/-- Folding front-insertion over a list reverses it onto the
accumulator. -/
theorem foldl_cons_eq_reverse_append :
    ∀ (es acc : List HistoryEvent),
      es.foldl (fun h e => e :: h) acc = es.reverse ++ acc := by
  intro es
  induction es with
  | nil => intro acc; simp
  | cons hd tl ih =>
    intro acc
    rw [List.foldl_cons, ih, List.reverse_cons, List.append_assoc]
    rfl

/-- C1: `FindPick(partId)` walks the history chronologically (oldest
first) and returns the coordinates of the first `Add` event of `partId`
whose target cell currently holds `partId` with quantity > 0, skipping
ineligible `Add` events; it returns `none` (NotFound) exactly when no
event is eligible.  `findPick` is a pure function of the state — it
returns only a cell reference, so no state is mutated by construction. -/
theorem findPick_spec (s : AppState) (pid : String) :
    (findPick s pid = none ↔
      ∀ e ∈ s.history.reverse, eligiblePick s.racks pid e = false) ∧
    (∀ (r : String) (i j : Int), findPick s pid = some (r, i, j) →
      ∃ (k : Nat) (e : HistoryEvent),
        (s.history.reverse)[k]? = some e ∧
        eligiblePick s.racks pid e = true ∧
        r = e.rack ∧ i = e.row ∧ j = e.col ∧
        ∀ m, m < k → ∀ e', (s.history.reverse)[m]? = some e' →
          eligiblePick s.racks pid e' = false) := by
  constructor
  · exact findPickChron_eq_none s.racks pid s.history.reverse
  · intro r i j h
    exact findPickChron_first s.racks pid s.history.reverse r i j h

/-- Witness for C1, on the §8 FIFO scenario: after Add(A,1,1,P1,5),
Add(A,2,1,P1,5), Subtract(A,1,1,P1,5), the pick for P1 is (A,2,1) —
the older, now-empty cell is skipped. -/
theorem findPick_spec_witness :
    ∃ (k : Nat) (e : HistoryEvent),
      (stateEx3.history.reverse)[k]? = some e ∧
      eligiblePick stateEx3.racks "P1" e = true ∧
      "A" = e.rack ∧ (2 : Int) = e.row ∧ (1 : Int) = e.col ∧
      ∀ m, m < k → ∀ e', (stateEx3.history.reverse)[m]? = some e' →
        eligiblePick stateEx3.racks "P1" e' = false :=
  (findPick_spec stateEx3 "P1").2 "A" 2 1 (by decide)

/-- C2: with `qty > 0` and in-bounds coordinates (the cell exists), an
Add onto a cell holding a different part fails with `Conflict`, and an
Add that would push the quantity past `CELL_CAPACITY` (on a cell that is
empty or holds the same part) fails with `CapacityExceeded`; in both
cases the returned state is exactly the input state, so every cell and
the history log are unchanged. -/
theorem addOp_failure_spec (s : AppState) (user ts rid : String)
    (row col : Int) (pid : String) (qty : Int) (c : Cell) (hq : 0 < qty)
    (hc : cellAt s.racks rid row col = some c) :
    (∀ p, c.partNo = some p → p ≠ pid →
      addOp s user ts rid row col pid qty =
        (Except.error OpError.conflict, s)) ∧
    ((c.partNo = none ∨ c.partNo = some pid) →
      CELL_CAPACITY < c.quantity + qty →
      addOp s user ts rid row col pid qty =
        (Except.error OpError.capacityExceeded, s)) := by
  constructor
  · intro p hp hne
    unfold addOp
    simp only [hc]
    rw [if_pos]
    exact ⟨by simp [hp], by
      rw [hp]; intro hcon; exact hne (Option.some.inj hcon)⟩
  · intro hp hcap
    unfold addOp
    simp only [hc]
    have hA : ¬(c.partNo ≠ none ∧ c.partNo ≠ some pid) := by
      rcases hp with h | h
      · exact fun hcon => hcon.1 h
      · exact fun hcon => hcon.2 h
    rw [if_neg hA, if_pos hcap]

/-- Witness for C2, on the §8 capacity scenario: after Add(A,1,1,P1,20),
Add(A,1,1,P1,10) fails with CapacityExceeded (20 + 10 = 30 > 25) and the
state is unchanged (the quantity stays 20). -/
theorem addOp_failure_witness :
    addOp stateCap "u" "t2" "A" 1 1 "P1" 10 =
      (Except.error OpError.capacityExceeded, stateCap) :=
  (addOp_failure_spec stateCap "u" "t2" "A" 1 1 "P1" 10 ⟨some "P1", 20⟩
      (by decide) (by decide)).2 (Or.inr rfl) (by decide)

/-- C3: with `qty > 0` and in-bounds coordinates, Subtract fails with
`Mismatch` — returning exactly the input state — if and only if the cell
holds a different part (or none) or its quantity is below `qty`; on
success the cell's quantity drops by `qty`, the part marker is cleared
exactly when the result is 0, and exactly one `Subtract` event is
prepended to the history. -/
theorem subtractOp_spec (s : AppState) (user ts rid : String)
    (row col : Int) (pid : String) (qty : Int) (c : Cell) (hq : 0 < qty)
    (hc : cellAt s.racks rid row col = some c) :
    (subtractOp s user ts rid row col pid qty =
        (Except.error OpError.mismatch, s) ↔
      (c.partNo ≠ some pid ∨ c.quantity < qty)) ∧
    (c.partNo = some pid → qty ≤ c.quantity →
      (subtractOp s user ts rid row col pid qty).1 = Except.ok () ∧
      cellAt ((subtractOp s user ts rid row col pid qty).2).racks
          rid row col =
        some ⟨if c.quantity - qty = 0 then none else some pid,
              c.quantity - qty⟩ ∧
      ((subtractOp s user ts rid row col pid qty).2).history =
        { timestamp := ts, user := user, action := "Subtract", rack := rid,
          row := row, col := col, partNo := pid, quantity := qty,
          note := "" } :: s.history) := by
  constructor
  · constructor
    · intro h
      by_contra hcon
      push_neg at hcon
      obtain ⟨hp, hqle⟩ := hcon
      unfold subtractOp at h
      simp only [hc] at h
      rw [if_pos ⟨hp, hqle⟩] at h
      simp [Prod.ext_iff] at h
    · intro h
      unfold subtractOp
      simp only [hc]
      rw [if_neg]
      rcases h with h | h
      · exact fun hcon => h hcon.1
      · exact fun hcon => absurd hcon.2 (not_le.mpr h)
  · intro hp hqle
    unfold subtractOp
    simp only [hc]
    rw [if_pos ⟨hp, hqle⟩]
    exact ⟨rfl, cellAt_setCell s.racks rid row col _ c hc, rfl⟩

/-- Witness for C3, on the §8 scenario: with quantity 20 in the cell,
Subtract(A,1,1,P1,25) fails with Mismatch (insufficient quantity) and
the state is unchanged. -/
theorem subtractOp_spec_witness :
    subtractOp stateCap "u" "t3" "A" 1 1 "P1" 25 =
      (Except.error OpError.mismatch, stateCap) :=
  (subtractOp_spec stateCap "u" "t3" "A" 1 1 "P1" 25 ⟨some "P1", 20⟩
      (by decide) (by decide)).1.mpr (Or.inr (by decide))

/-- C4 counterexample: loading the persisted racks row
(Rack A, Row 1, Col 1, no part identifier, Quantity 5) — as
`load_all_from_sheets` does, without validation — produces a cell with
quantity 5 but an absent part marker, violating
`quantity == 0 ⇔ partId absent`.  So the invariant does not hold after
loading arbitrary persisted state. -/
theorem cell_invariant_load_cex :
    ¬ racksInv (loadRacks [⟨"A", 1, 1, none, 5⟩]) := by decide

/-- C4 (amended): every cell satisfies
`quantity == 0 ⇔ partId absent ∧ 0 ≤ quantity ≤ 25` after
initialization and after every accepted or rejected Add/Subtract
mutation; after loading persisted state the invariant holds provided
every persisted row itself writes an invariant-satisfying cell (the
load path copies rows unvalidated, see the counterexample). -/
theorem cell_invariant_spec :
    racksInv initRacks ∧
    (∀ (s : AppState) (user ts rid : String) (row col : Int)
        (pid : String) (qty : Int),
      0 < qty → racksInv s.racks →
      racksInv ((addOp s user ts rid row col pid qty).2).racks) ∧
    (∀ (s : AppState) (user ts rid : String) (row col : Int)
        (pid : String) (qty : Int),
      0 < qty → racksInv s.racks →
      racksInv ((subtractOp s user ts rid row col pid qty).2).racks) ∧
    (∀ rows : List RackSheetRow,
      (∀ r ∈ rows, cellInv ⟨normalizePartNo r.partNo, r.quantity⟩) →
      racksInv (loadRacks rows)) :=
  ⟨by decide,
   fun s user ts rid row col pid qty hq hs =>
     racksInv_addOp s user ts rid row col pid qty hq hs,
   fun s user ts rid row col pid qty hq hs =>
     racksInv_subtractOp s user ts rid row col pid qty hq hs,
   fun rows h => racksInv_foldl_applyRackRow rows initRacks (by decide) h⟩

/-- Witness for C4: the invariant survives a concrete accepted Add on a
fresh session. -/
theorem cell_invariant_spec_witness :
    racksInv ((addOp stateEx0 "u" "t1" "A" 1 1 "P1" 5).2).racks :=
  cell_invariant_spec.2.1 stateEx0 "u" "t1" "A" 1 1 "P1" 5 (by decide)
    (by decide)

/-- C5: the initial rack set is exactly A:9, B:15, C:12, D:6, E:24,
F:57; every rack has `FIXED_ROWS = 3` rows and its column count is the
ceiling of slots / rows (characterized by
`rows * (cols - 1) < spaces ≤ rows * cols`); the array is rows lists of
cols cells, all empty; and the grid shape rebuilt by the load path is
identical to the default one for every persisted input. -/
theorem init_grid_spec :
    (initRacks.map (fun p => (p.1, p.2.spaces)) =
      [("A", 9), ("B", 15), ("C", 12), ("D", 6), ("E", 24), ("F", 57)]) ∧
    (∀ p ∈ initRacks,
      p.2.rows = FIXED_ROWS ∧
      p.2.spaces ≤ p.2.rows * p.2.cols ∧
      p.2.rows * (p.2.cols - 1) < p.2.spaces ∧
      p.2.array.length = p.2.rows ∧
      (∀ row ∈ p.2.array, row.length = p.2.cols ∧ ∀ c ∈ row, c = emptyCell)) ∧
    (∀ rows : List RackSheetRow,
      (loadRacks rows).map rackShape = initRacks.map rackShape) := by
  refine ⟨by decide, by decide, ?_⟩
  intro rows
  unfold loadRacks
  exact rackShape_foldl_applyRackRow rows initRacks

/-- Witness for C5, instantiated at rack A (9 slots): 3 rows, 3 columns
(ceil(9/3)), a 3 × 3 array of empty cells. -/
theorem init_grid_spec_witness :
    (mkRack 9).rows = FIXED_ROWS ∧
    (mkRack 9).spaces ≤ (mkRack 9).rows * (mkRack 9).cols ∧
    (mkRack 9).rows * ((mkRack 9).cols - 1) < (mkRack 9).spaces ∧
    (mkRack 9).array.length = (mkRack 9).rows ∧
    (∀ row ∈ (mkRack 9).array,
      row.length = (mkRack 9).cols ∧ ∀ c ∈ row, c = emptyCell) :=
  init_grid_spec.2.1 ("A", mkRack 9) (by decide)

/-- C6 counterexample: the part "X" is not in the default catalog, yet a
cell holding one unit of "X" weighs 25.0 (the packaging addend, with
unknown weight defaulted to 0), not 0 as the claim states. -/
theorem cell_total_weight_unknown_cex :
    default_pm.find? (fun p => p.1 == "X") = none ∧
    cell_total_weight default_pm ⟨some "X", 1⟩ = 25 ∧ (25 : Rat) ≠ 0 := by
  refine ⟨by decide, ?_, by norm_num⟩
  simp [cell_total_weight, pmWeight, default_pm, PACKAGING_WEIGHT,
    List.find?]

/-- C6 (amended): `cell_total_weight` returns 0 when the quantity is not
positive or no (non-empty) part identifier is present; when the quantity
is positive and a part identifier is present it returns
`quantity * weight + 25.0` where an unknown part's catalog weight is
taken as 0 — so a cell with an unknown part yields 25.0, not 0. -/
theorem cell_total_weight_spec (pm : List (String × PartMeta))
    (cell : Cell) :
    ((cell.quantity ≤ 0 ∨ cell.partNo = none ∨ cell.partNo = some "") →
      cell_total_weight pm cell = 0) ∧
    (∀ pn, cell.partNo = some pn → pn ≠ "" → 0 < cell.quantity →
      cell_total_weight pm cell =
        (cell.quantity : Rat) * pmWeight pm pn + PACKAGING_WEIGHT) := by
  constructor
  · intro h
    rcases h with h | h | h
    · cases hp : cell.partNo with
      | none => simp [cell_total_weight, hp]
      | some pn =>
        have hno : ¬(0 < cell.quantity ∧ pn ≠ "") :=
          fun hcon => absurd hcon.1 (by omega)
        simp [cell_total_weight, hp, hno]
    · simp [cell_total_weight, h]
    · simp [cell_total_weight, h]
  · intro pn hpn hne hq
    simp [cell_total_weight, hpn, hne, hq]

/-- Witness for C6: a part absent from an empty catalog, quantity 2 —
the weight is 2 * 0 + 25.0. -/
theorem cell_total_weight_spec_witness :
    cell_total_weight [] ⟨some "P", 2⟩ =
      ((2 : Int) : Rat) * pmWeight [] "P" + PACKAGING_WEIGHT :=
  (cell_total_weight_spec [] ⟨some "P", 2⟩).2 "P" rfl (by decide)
    (by decide)

/-- C7: `total_qty_all` — a pure function of the racks value — equals
the nested sum of every cell's quantity over all racks, row indices and
column indices. -/
theorem total_qty_all_spec (racks : List (String × Rack)) :
    total_qty_all racks =
      (racks.map (fun p =>
        ∑ i in Finset.range p.2.array.length,
          ∑ j in Finset.range (p.2.array.getD i []).length,
            ((p.2.array.getD i []).getD j emptyCell).quantity)).sum := by
  induction racks with
  | nil => rfl
  | cons p tl ih =>
    have hsplit : cellsOf (p :: tl) = p.2.array.flatten ++ cellsOf tl := rfl
    unfold total_qty_all
    rw [hsplit, List.map_append, List.sum_append, List.map_cons,
      List.sum_cons, sum_map_quantity_flatten]
    unfold total_qty_all at ih
    rw [ih]

/-- C8: `add_history` prepends the new entry (the stored list is
most-recent-first), leaves every previously recorded event unchanged in
value and relative order, grows the length by one, and consequently a
chronological insertion sequence is stored reversed — so the
chronological-ascending view is the reverse of the stored list. -/
theorem add_history_spec (action rack : String) (row_ui col_ui : Int)
    (part_no : String) (qty : Int) (user note ts : String)
    (history : List HistoryEvent) :
    (add_history action rack row_ui col_ui part_no qty user note ts
        history).length = history.length + 1 ∧
    (add_history action rack row_ui col_ui part_no qty user note ts
        history)[0]? =
      some ⟨ts, user, action, rack, row_ui, col_ui, part_no, qty, note⟩ ∧
    (∀ k : Nat,
      (add_history action rack row_ui col_ui part_no qty user note ts
          history)[k + 1]? = history[k]?) ∧
    (add_history action rack row_ui col_ui part_no qty user note ts
        history).tail = history ∧
    (∀ es : List HistoryEvent,
      es.foldl (fun h e =>
        add_history e.action e.rack e.row e.col e.partNo e.quantity
          e.user e.note e.timestamp h) [] = es.reverse) := by
  refine ⟨rfl, by simp [add_history], fun k => by simp [add_history], rfl,
    fun es => ?_⟩
  have hfun : (fun (h : List HistoryEvent) (e : HistoryEvent) =>
      add_history e.action e.rack e.row e.col e.partNo e.quantity
        e.user e.note e.timestamp h) = fun h e => e :: h := by
    funext h e
    rfl
  rw [hfun, foldl_cons_eq_reverse_append, List.append_nil]

/-- C9: every role the demo user table can resolve is one of master,
input, output, and the derived permission flags form the strict
hierarchy: master ⇒ all three, input ⇒ input+output only, output ⇒
output only. -/
theorem role_permissions_spec :
    (∀ u r, lookupRole u = some r →
      r = "master" ∨ r = "input" ∨ r = "output") ∧
    (can_master "master" = true ∧ can_input "master" = true ∧
      can_output "master" = true) ∧
    (can_master "input" = false ∧ can_input "input" = true ∧
      can_output "input" = true) ∧
    (can_master "output" = false ∧ can_input "output" = false ∧
      can_output "output" = true) := by
  refine ⟨?_, by decide, by decide, by decide⟩
  intro u r h
  unfold lookupRole at h
  cases hf : USERS.find? (fun p => p.1 == u) with
  | none => rw [hf] at h; exact Option.noConfusion h
  | some p =>
    rw [hf] at h
    have hm : p ∈ USERS := List.mem_of_find?_eq_some hf
    have hall : ∀ q ∈ USERS,
        q.2 = "master" ∨ q.2 = "input" ∨ q.2 = "output" := by decide
    simp only [Option.map_some', Option.some.injEq] at h
    exact h ▸ hall p hm

/-- Witness for C9: the user "Vishal" resolves to the role "master",
which is in the allowed role set. -/
theorem role_permissions_witness :
    "master" = "master" ∨ "master" = "input" ∨ "master" = "output" :=
  role_permissions_spec.1 "Vishal" "master" (by decide)

/-- C10: a failed worksheet read (absent table or any underlying store
error) and an empty table both yield the empty row sequence rather than
an error, and `load_all_from_sheets` then proceeds with the
default-initialized data for that table: empty part catalog, the default
rack grid, empty history. -/
theorem read_sheet_defaults_spec :
    (∀ (α : Type) (msg : String),
      read_sheet_to_df (Except.error msg : Except String (List α)) = []) ∧
    (∀ α : Type, read_sheet_to_df (Except.ok ([] : List α)) = []) ∧
    (∀ fpm fhist msg,
      (load_all_from_sheets fpm (Except.error msg) fhist).2.1 =
        initRacks) ∧
    (∀ fracks fhist msg,
      (load_all_from_sheets (Except.error msg) fracks fhist).1 = []) ∧
    (∀ fpm fracks msg,
      (load_all_from_sheets fpm fracks (Except.error msg)).2.2 = []) :=
  ⟨fun _ _ => rfl, fun _ => rfl, fun _ _ _ => rfl, fun _ _ _ => rfl,
   fun _ _ _ => rfl⟩

end FGStock
